import Mathlib

set_option maxRecDepth 100000

/-!
# Verification of the rlox-pt2 bytecode model and execution engine

Shallow embedding of the Rust sources of `rlox-pt2`:

* `src/vm.rs`, `src/chunk.rs`, `src/object.rs` — the early single-chunk VM
  (no call frames): namespace `EarlyVM`;
* `src/repr/value.rs`, `src/repr/string.rs`, `src/repr/object.rs` — the later
  value/object representation: `EarlyVM.Value.falsey` and namespace `ReprDisplay`;
* `src/repr/chunk.rs` — the chunk with a global-name table: namespace `ReprC`;
* `src/bytecode/chunk.rs` — the closure-capable chunk and its disassembler:
  namespace `Bytecode`.

Machine `f64` values are modelled parametrically: every definition that touches
numbers takes a carrier type `α` together with a `FloatOps α` record of the
primitive operations the Rust code applies to `f64`.  All theorems hold for
every carrier, hence in particular for IEEE-754 doubles.  Rust panics
(`unwrap`, out-of-bounds indexing, `expect`, `unreachable!`) are modelled by a
dedicated constructor (`StepResult.panicked`, `PanicOr.panicked`, or `none`),
never conflated with recoverable errors.
-/

namespace RloxPt2

/-- Modelled from the spec: `Span` (`common/ui.rs` is not part of the sources)
is a source range attached to each instruction byte.  Only its equality is
ever observed here. -/
structure Span where
  start : Nat
  stop : Nat
deriving DecidableEq, Repr

/-- Result of a Rust function that either returns normally or panics
(`expect`/`panic!` aborts the process; there is no error channel). -/
inductive PanicOr (β : Type) where
  | panicked : String → PanicOr β
  | ok : β → PanicOr β
deriving DecidableEq, Repr

namespace EarlyVM

/-- The primitive `f64` operations used by `src/vm.rs` and `src/value.rs`,
abstracted over the carrier type so that no commitment to floating-point
arithmetic is made. `beq` models `PartialEq` on `f64`, `lt`/`gt` the `<`/`>`
comparisons, `display` the `Display` implementation. -/
structure FloatOps (α : Type) where
  add : α → α → α
  sub : α → α → α
  mul : α → α → α
  div : α → α → α
  neg : α → α
  beq : α → α → Bool
  lt : α → α → Bool
  gt : α → α → Bool
  display : α → String

/-- `ObjectKind` from `src/object.rs`: a single `String` variant holding the
character content of the (immutable) heap string. -/
inductive ObjectKind where
  | string : String → ObjectKind
deriving DecidableEq, Repr

/-- `impl Display for ObjectKind` in `src/object.rs`:
`Self::String { str } => write!(f, "\"{}\"", str.as_ref())` — the content is
wrapped in double quotes. -/
def ObjectKind.display : ObjectKind → String
  | .string s => "\"" ++ s ++ "\""

/-- `Value` from `src/value.rs` (the variant list appears identically in
`src/repr/value.rs`): `Num(f64)`, `Bool`, `Nil`, `Object`.  An `Object` is a
`NonNull` pointer into the heap; here it is an index into a heap list. -/
inductive Value (α : Type) where
  | num : α → Value α
  | bool : Bool → Value α
  | nil : Value α
  | object : Nat → Value α
deriving DecidableEq, Repr

/-- `Value::falsey` from `src/repr/value.rs` lines 35–37:
`matches!(self, Self::Bool(false) | Self::Nil)`. -/
def Value.falsey {α : Type} : Value α → Bool
  | .bool false => true
  | .nil => true
  | _ => false

/-- States that two values are built from the same variant of the `Value`
enum (used to phrase the cross-variant part of the equality claim). -/
def sameVariant {α : Type} : Value α → Value α → Bool
  | .num _, .num _ => true
  | .bool _, .bool _ => true
  | .nil, .nil => true
  | .object _, .object _ => true
  | _, _ => false

/-- `Object::is_string` from `src/object.rs`:
`matches!(inner.kind, ObjectKind::String { .. })`.  Dereferencing a dangling
pointer is undefined behaviour; an invalid index yields `false` here and the
theorems only ever use valid indices. -/
def is_string (heap : List ObjectKind) (i : Nat) : Bool :=
  match heap.get? i with
  | some (.string _) => true
  | none => false

/-- `impl PartialEq for ObjectKind` in `src/object.rs` lines 87–98: two string
objects compare by character content (`a.as_ref() == b.as_ref()`), regardless
of whether they are the same allocation. -/
def objEq (heap : List ObjectKind) (i j : Nat) : Bool :=
  match heap.get? i, heap.get? j with
  | some (.string a), some (.string b) => a == b
  | _, _ => false

/-- The derived `PartialEq` on `Value` (`src/value.rs`): same-variant
structural comparison, delegating `Num` to `f64` equality (`F.beq`) and
`Object` to the content comparison of `src/object.rs`; cross-variant pairs
compare unequal. -/
def valueEq {α : Type} (F : FloatOps α) (heap : List ObjectKind) :
    Value α → Value α → Bool
  | .num a, .num b => F.beq a b
  | .bool a, .bool b => a == b
  | .nil, .nil => true
  | .object a, .object b => objEq heap a b
  | _, _ => false

/-- `Object::concatenate` from `src/object.rs` lines 55–61 together with
`Object::make_str`: allocate a fresh heap string whose content is the left
content followed by the right content, and return its (fresh) index.  The
`let … else unreachable!` arm for non-strings is a panic (`none`). -/
def concatenate (heap : List ObjectKind) (i j : Nat) :
    Option (Nat × List ObjectKind) :=
  match heap.get? i, heap.get? j with
  | some (.string a), some (.string b) =>
      some (heap.length, heap ++ [.string (a ++ b)])
  | _, _ => none

/-- The `Display` implementation of `Value` (`src/value.rs`): numbers via the
`f64` formatter, booleans as `true`/`false`, `nil`, objects through
`ObjectKind`'s quoting formatter from `src/object.rs`.  `none` models the
undefined behaviour of displaying a dangling object pointer. -/
def displayValue {α : Type} (F : FloatOps α) (heap : List ObjectKind) :
    Value α → Option String
  | .num n => some (F.display n)
  | .bool b => some (if b then "true" else "false")
  | .nil => some "nil"
  | .object i =>
    match heap.get? i with
    | some k => some k.display
    | none => none

/-- `OpCode` from `src/chunk.rs` (the early, frameless instruction set), in
declaration order, so that `num_enum`'s `FromPrimitive` assigns discriminants
0‥15 with every other byte decoding to `Invalid`.  Note: `src/vm.rs`'s
dispatch match in this snapshot has no `Pop` arm. -/
inductive OpCode where
  | Return
  | Nil
  | True
  | False
  | Constant
  | Negate
  | Not
  | Print
  | Pop
  | Add
  | Sub
  | Mul
  | Div
  | Equal
  | Greater
  | Less
  | Invalid
deriving DecidableEq, Repr

/-- The `num_enum` byte → `OpCode` conversion used by `self.next_byte().into()`. -/
def byteToOp : Nat → OpCode
  | 0 => .Return
  | 1 => .Nil
  | 2 => .True
  | 3 => .False
  | 4 => .Constant
  | 5 => .Negate
  | 6 => .Not
  | 7 => .Print
  | 8 => .Pop
  | 9 => .Add
  | 10 => .Sub
  | 11 => .Mul
  | 12 => .Div
  | 13 => .Equal
  | 14 => .Greater
  | 15 => .Less
  | _ => .Invalid

/-- The chunk fields the dispatch loop reads (`src/chunk.rs`): the instruction
byte buffer and the constant pool.  The `spans` array is only consulted when
formatting diagnostics and is elided. -/
structure EChunk (α : Type) where
  instructions : List Nat
  constants : List (Value α)
deriving DecidableEq, Repr

/-- The execution state of the early VM (`struct VM` in `src/vm.rs`): the
chunk, instruction pointer, value stack and transient-object list, plus the
heap of live allocations and the lines written to stdout (`objects` holds heap
indices; `heap` models the Rust allocator). -/
structure VMState (α : Type) where
  chunk : EChunk α
  ip : Nat
  stack : List (Value α)
  heap : List ObjectKind
  objects : List Nat
  output : List String
deriving DecidableEq, Repr

/-- Outcome of one iteration of the dispatch loop: keep going, halt with
`Ok(())`, abort with `Err(InterpretError::RuntimeError)` (the diagnostic
printed to stderr is elided), or hit a Rust panic (`unwrap` on an empty stack,
out-of-bounds indexing, `unreachable!`). -/
inductive StepResult (α : Type) where
  | cont : VMState α → StepResult α
  | halt : VMState α → StepResult α
  | error : VMState α → StepResult α
  | panicked : StepResult α
deriving DecidableEq, Repr

/-- `VM::binary_num_op` from `src/vm.rs` lines 80–99: pop `b`, pop `a`; two
numbers produce `op a b`, anything else is a runtime error.  The state passed
in already has the instruction pointer advanced past the opcode. -/
def binary_num_op {α : Type} (s : VMState α) (op : α → α → Value α) :
    StepResult α :=
  match s.stack with
  | b :: a :: rest =>
    match a, b with
    | .num x, .num y => .cont { s with stack := op x y :: rest }
    | _, _ => .error { s with stack := rest }
  | _ => .panicked

/-- The body of the dispatch `match` in `VM::run` (`src/vm.rs` lines 126–199),
given the decoded opcode; `s` already has `ip` advanced past the opcode byte
(`next_byte`).  The snapshot's match has no `Pop` arm, so `Pop` is modelled as
unreachable. -/
def stepOp {α : Type} (F : FloatOps α) (s : VMState α) :
    OpCode → StepResult α
  | .Return => .halt s
  | .Constant =>
    match s.chunk.instructions.get? s.ip with
    | none => .panicked
    | some i =>
      match s.chunk.constants.get? i with
      | none => .panicked
      | some v => .cont { s with ip := s.ip + 1, stack := v :: s.stack }
  | .Nil => .cont { s with stack := .nil :: s.stack }
  | .True => .cont { s with stack := .bool true :: s.stack }
  | .False => .cont { s with stack := .bool false :: s.stack }
  | .Negate =>
    match s.stack with
    | [] => .panicked
    | v :: rest =>
      match v with
      | .num n => .cont { s with stack := .num (F.neg n) :: rest }
      | _ => .error { s with stack := rest }
  | .Not =>
    match s.stack with
    | [] => .panicked
    | v :: rest => .cont { s with stack := .bool v.falsey :: rest }
  | .Print =>
    match s.stack with
    | [] => .panicked
    | v :: rest =>
      match displayValue F s.heap v with
      | none => .panicked
      | some line => .cont { s with stack := rest, output := s.output ++ [line] }
  | .Add =>
    match s.stack with
    | b :: a :: rest =>
      match a, b with
      | .num x, .num y => .cont { s with stack := .num (F.add x y) :: rest }
      | .object i, .object j =>
        if is_string s.heap i && is_string s.heap j then
          match concatenate s.heap i j with
          | none => .panicked
          | some (k, heap') =>
            .cont { s with stack := .object k :: rest, heap := heap',
                           objects := s.objects ++ [k] }
        else .error { s with stack := rest }
      | _, _ => .error { s with stack := rest }
    | _ => .panicked
  | .Pop => .panicked
  | .Sub => binary_num_op s (fun x y => .num (F.sub x y))
  | .Mul => binary_num_op s (fun x y => .num (F.mul x y))
  | .Div => binary_num_op s (fun x y => .num (F.div x y))
  | .Less => binary_num_op s (fun x y => .bool (F.lt x y))
  | .Greater => binary_num_op s (fun x y => .bool (F.gt x y))
  | .Equal =>
    match s.stack with
    | b :: a :: rest =>
      .cont { s with stack := .bool (valueEq F s.heap a b) :: rest }
    | _ => .panicked
  | .Invalid => .panicked

/-- One iteration of the dispatch loop: fetch the byte at `ip` (`next_byte`,
which panics past the end of the buffer), advance `ip`, decode, execute. -/
def step {α : Type} (F : FloatOps α) (s : VMState α) : StepResult α :=
  match s.chunk.instructions.get? s.ip with
  | none => .panicked
  | some b => stepOp F { s with ip := s.ip + 1 } (byteToOp b)

/-- Overall outcome of `VM::run`: `Ok(())` with the final state,
`Err(RuntimeError)` with the state at the fault, a panic, or fuel exhaustion
(the fuelled loop is exact whenever enough fuel is supplied). -/
inductive RunResult (α : Type) where
  | ok : VMState α → RunResult α
  | runtimeError : VMState α → RunResult α
  | panicked : RunResult α
  | outOfFuel : RunResult α
deriving DecidableEq, Repr

/-- The `loop { … }` of `VM::run`, fuelled. -/
def runLoop {α : Type} (F : FloatOps α) : Nat → VMState α → RunResult α
  | 0, _ => .outOfFuel
  | fuel + 1, s =>
    match step F s with
    | .halt s' => .ok s'
    | .error s' => .runtimeError s'
    | .panicked => .panicked
    | .cont s' => runLoop F fuel s'

/-- `VM::run` from `src/vm.rs` lines 110–201: an empty instruction buffer
returns `Ok(())` before the dispatch loop is ever entered. -/
def run {α : Type} (F : FloatOps α) (fuel : Nat) (s : VMState α) :
    RunResult α :=
  if s.chunk.instructions.isEmpty then .ok s else runLoop F fuel s

/-- A concrete instantiation of the abstract `f64` operations (used only to
evaluate the theorems at explicit inputs). -/
def intOps : FloatOps Int :=
  { add := fun a b => a + b
    sub := fun a b => a - b
    mul := fun a b => a * b
    div := fun a b => a / b
    neg := fun a => -a
    beq := fun a b => a == b
    lt := fun a b => decide (a < b)
    gt := fun a b => decide (b < a)
    display := fun a => toString a }

end EarlyVM

namespace ReprDisplay

/-- `ObjectKind` from `src/repr/object.rs` lines 71–78 (string content, or the
function/closure/native name).  An `ObjFunction`, `ObjClosure` or
`NativeFunction` is reduced here to the name its `Display` prints; the three
function-like payloads live in modules absent from the sources and are
modelled from the spec (`<function NAME>` / `<native NAME>`). -/
inductive RObjectKind where
  | string : String → RObjectKind
  | function : String → RObjectKind
  | closure : String → RObjectKind
  | nativeFunction : String → RObjectKind
deriving DecidableEq, Repr

/-- `impl Display for UnsafeString` in `src/repr/string.rs` lines 16–20:
`self.str.as_ref().fmt(f)` — the raw character content, nothing added.  An
`UnsafeString` is identified with its content. -/
def unsafe_string_display (s : String) : String := s

/-- `impl Display for ObjectKind` in `src/repr/object.rs` lines 80–89: a
string prints as its raw content (via `UnsafeString`'s formatter), functions
and closures as `<function NAME>`; `NativeFunction` delegates to a `Display`
whose module is absent from the sources, modelled from the spec as
`<native NAME>`. -/
def RObjectKind.display : RObjectKind → String
  | .string s => unsafe_string_display s
  | .function n => "<function " ++ n ++ ">"
  | .closure n => "<function " ++ n ++ ">"
  | .nativeFunction n => "<native " ++ n ++ ">"

end ReprDisplay

namespace ReprC

/-- `Chunk` from `src/repr/chunk.rs` lines 38–47: instruction bytes, spans,
constant pool and the interned global-name list, parametrised over the value
type of the constant pool. -/
structure RChunk (V : Type) where
  instructions : List Nat
  spans : List Span
  constants : List V
  global_names : List String
deriving DecidableEq, Repr

/-- The `global_names.iter().enumerate().find(|(_, s)| s.as_str() == literal)`
search inside `Chunk::add_global`: the index of the first entry whose content
equals the literal. -/
def find_index (p : String → Bool) : List String → Option Nat
  | [] => none
  | a :: l => if p a then some 0 else (find_index p l).map (· + 1)

/-- `Chunk::add_constant` from `src/repr/chunk.rs` lines 72–76: push the
value, return the new last index as a `u8`; `try_into().expect("Too many
constants")` panics when the index exceeds 255. -/
def add_constant {V : Type} (c : RChunk V) (v : V) : PanicOr (Nat × RChunk V) :=
  let constants := c.constants ++ [v]
  let index := constants.length - 1
  if index ≤ 255 then .ok (index, { c with constants := constants })
  else .panicked "Too many constants"

/-- `Chunk::get_constant` from `src/repr/chunk.rs` lines 78–80
(`self.constants[index as usize]`; `none` models the out-of-bounds panic). -/
def get_constant {V : Type} (c : RChunk V) (index : Nat) : Option V :=
  c.constants.get? index

/-- `Chunk::add_global` from `src/repr/chunk.rs` lines 82–97: return the index
of an existing entry (`i as u8` truncates, hence the `% 256`), else push the
literal and return the new last index; `try_into().expect("Too many
literals")` panics past index 255. -/
def add_global {V : Type} (c : RChunk V) (literal : String) :
    PanicOr (Nat × RChunk V) :=
  match find_index (fun s => s == literal) c.global_names with
  | some i => .ok (i % 256, c)
  | none =>
    let names := c.global_names ++ [literal]
    let index := names.length - 1
    if index ≤ 255 then .ok (index, { c with global_names := names })
    else .panicked "Too many literals"

/-- `Chunk::get_global` from `src/repr/chunk.rs` lines 99–101
(`self.global_names[index as usize]`; `none` models the panic). -/
def get_global {V : Type} (c : RChunk V) (index : Nat) : Option String :=
  c.global_names.get? index

end ReprC

namespace Bytecode

/-- Modelled from the spec: `ObjFunction` (`value/function.rs` is not part of
the sources).  The disassembler only reads its `upvalues` count (and prints
its name); the spec gives it a name, an arity and the number of upvalue
descriptors emitted after its `Closure` instruction. -/
structure ObjFunction where
  name : String
  arity : Nat
  upvalues : Nat
deriving DecidableEq, Repr

/-- `OpCode` from `src/bytecode/chunk.rs` lines 9–51, in declaration order so
that `num_enum` assigns discriminants 0‥29, every other byte decoding to
`Invalid`. -/
inductive OpCode where
  | Return
  | Nil
  | True
  | False
  | Constant
  | Call
  | JumpRelIfFalse
  | JumpRelIfTrue
  | JumpRel
  | Loop
  | Closure
  | Negate
  | Not
  | Print
  | Pop
  | CloseUpvalue
  | GetGlobal
  | DefineGlobal
  | SetGlobal
  | GetLocal
  | SetLocal
  | GetUpvalue
  | SetUpvalue
  | Add
  | Sub
  | Mul
  | Div
  | Equal
  | Greater
  | Less
  | Invalid
deriving DecidableEq, Repr

/-- The `num_enum` byte → `OpCode` conversion of `src/bytecode/chunk.rs`. -/
def byteToOp : Nat → OpCode
  | 0 => .Return
  | 1 => .Nil
  | 2 => .True
  | 3 => .False
  | 4 => .Constant
  | 5 => .Call
  | 6 => .JumpRelIfFalse
  | 7 => .JumpRelIfTrue
  | 8 => .JumpRel
  | 9 => .Loop
  | 10 => .Closure
  | 11 => .Negate
  | 12 => .Not
  | 13 => .Print
  | 14 => .Pop
  | 15 => .CloseUpvalue
  | 16 => .GetGlobal
  | 17 => .DefineGlobal
  | 18 => .SetGlobal
  | 19 => .GetLocal
  | 20 => .SetLocal
  | 21 => .GetUpvalue
  | 22 => .SetUpvalue
  | 23 => .Add
  | 24 => .Sub
  | 25 => .Mul
  | 26 => .Div
  | 27 => .Equal
  | 28 => .Greater
  | 29 => .Less
  | _ => .Invalid

/-- `Chunk` from `src/bytecode/chunk.rs` lines 53–63, parametrised over the
constant-pool value type `V` (the crate's `Value` module is not among the
sources).  The `Interner` (also absent) is modelled from the spec as the dense
index → name list its reverse lookup exposes. -/
structure BChunk (V : Type) where
  instructions : List Nat
  spans : List Span
  constants : List V
  globals : List String
  native_globals : List (Nat × V)
deriving DecidableEq, Repr

/-- `Chunk::add_constant` from `src/bytecode/chunk.rs` lines 91–95: push the
value and return the new last index as a `u8`;
`try_into().expect("Too many constants")` panics when the index exceeds 255. -/
def add_constant {V : Type} (c : BChunk V) (v : V) : PanicOr (Nat × BChunk V) :=
  let constants := c.constants ++ [v]
  let index := constants.length - 1
  if index ≤ 255 then .ok (index, { c with constants := constants })
  else .panicked "Too many constants"

/-- `Chunk::get_constant` from `src/bytecode/chunk.rs` lines 97–99
(`self.constants[index as usize]`; `none` models the out-of-bounds panic). -/
def get_constant {V : Type} (c : BChunk V) (index : Nat) : Option V :=
  c.constants.get? index

/-- The upvalue trailer loop of `Chunk::closure` (`src/bytecode/chunk.rs`
lines 151–165): for each of the function's upvalues read the
`(is_local, index)` byte pair at the running offset and advance by two;
reading past the end of the instruction buffer panics (`none`). -/
def closure_trailer {V : Type} (c : BChunk V) : Nat → Nat → Option Nat
  | 0, offset => some offset
  | n + 1, offset =>
    match c.instructions.get? offset, c.instructions.get? (offset + 1) with
    | some _, some _ => closure_trailer c n (offset + 2)
    | _, _ => none

/-- `Chunk::disassemble_instruction` from `src/bytecode/chunk.rs` lines
168–225, reduced to its offset arithmetic: what it prints is elided, `none`
marks any of its panics (indexing `spans`/`instructions`/`constants`/the
interner out of bounds, or `try_as::<ObjFunction>().unwrap()` on a non-function
constant, the latter modelled through the `asFun` view of the parametric
constant type).  Every arm returns the offset of the next instruction. -/
def disassemble_instruction {V : Type} (asFun : V → Option ObjFunction)
    (c : BChunk V) (offset : Nat) : Option Nat :=
  match c.spans.get? offset with
  | none => none
  | some _ =>
  match c.instructions.get? offset with
  | none => none
  | some b =>
  match byteToOp b with
  | .Return | .Negate | .Add | .Sub | .Mul | .Div | .Nil | .Not | .True
  | .False | .Equal | .Greater | .Less | .Print | .Pop | .CloseUpvalue
  | .Invalid => some (offset + 1)
  | .Constant =>
    match c.instructions.get? (offset + 1) with
    | none => none
    | some idx =>
      match c.constants.get? idx with
      | none => none
      | some _ => some (offset + 2)
  | .DefineGlobal | .GetGlobal | .SetGlobal =>
    match c.instructions.get? (offset + 1) with
    | none => none
    | some idx =>
      match c.globals.get? idx with
      | none => none
      | some _ => some (offset + 2)
  | .SetLocal | .GetLocal | .SetUpvalue | .GetUpvalue | .Call =>
    match c.instructions.get? (offset + 1) with
    | none => none
    | some _ => some (offset + 2)
  | .JumpRelIfFalse | .JumpRelIfTrue | .JumpRel | .Loop =>
    match c.instructions.get? (offset + 1), c.instructions.get? (offset + 2) with
    | some _, some _ => some (offset + 3)
    | _, _ => none
  | .Closure =>
    match c.instructions.get? (offset + 1) with
    | none => none
    | some idx =>
      match c.constants.get? idx with
      | none => none
      | some v =>
        match asFun v with
        | none => none
        | some fn => closure_trailer c fn.upvalues (offset + 2)

/-- The `while i < self.instructions.len() { i = self.disassemble_instruction(i) }`
loop of `Chunk::disassemble` (`src/bytecode/chunk.rs` lines 106–112), fuelled;
returns the offset at which the loop exits. -/
def disassemble_loop {V : Type} (asFun : V → Option ObjFunction)
    (c : BChunk V) : Nat → Nat → Option Nat
  | 0, offset => if offset < c.instructions.length then none else some offset
  | fuel + 1, offset =>
    if offset < c.instructions.length then
      match disassemble_instruction asFun c offset with
      | none => none
      | some off' => disassemble_loop asFun c fuel off'
    else some offset

/-- `Chunk::disassemble`: walk the whole instruction buffer from offset 0.
`instructions.length` fuel always suffices because every decoded instruction
is at least one byte. -/
def disassemble {V : Type} (asFun : V → Option ObjFunction) (c : BChunk V) :
    Option Nat :=
  disassemble_loop asFun c c.instructions.length 0

/-- The opcodes the disassembler decodes with no operand bytes. -/
def simpleOps : List OpCode :=
  [.Return, .Nil, .True, .False, .Negate, .Not, .Print, .Pop, .CloseUpvalue,
   .Add, .Sub, .Mul, .Div, .Equal, .Greater, .Less, .Invalid]

/-- The opcodes carrying one plain byte operand. -/
def byteOps : List OpCode := [.Call, .GetLocal, .SetLocal, .GetUpvalue, .SetUpvalue]

/-- The opcodes carrying one global-name-index operand. -/
def globalOps : List OpCode := [.GetGlobal, .DefineGlobal, .SetGlobal]

/-- The opcodes carrying a two-byte jump offset. -/
def jumpOps : List OpCode := [.JumpRelIfFalse, .JumpRelIfTrue, .JumpRel, .Loop]

/-- The opcode/operand well-formedness invariant of a chunk, written from the
struct comment in `src/bytecode/chunk.rs` ("An OpCode must be followed by
however many bytes are specified") and the operand table of the opcode
encoding: from the given offset, the buffer is a sequence of opcodes each
followed by exactly its declared operand bytes — a valid constant index after
`Constant`, a valid interner index after a global op, one plain byte after a
byte op, two bytes after a jump, and after `Closure` a constant index naming a
function constant followed by its `2 × upvalues` trailer bytes — ending
exactly at the end of the buffer. -/
inductive WF {V : Type} (asFun : V → Option ObjFunction) (c : BChunk V) : Nat → Prop where
  | done : WF asFun c c.instructions.length
  | simple (offset b : Nat) :
      c.instructions.get? offset = some b → byteToOp b ∈ simpleOps →
      WF asFun c (offset + 1) → WF asFun c offset
  | byteArg (offset b x : Nat) :
      c.instructions.get? offset = some b → byteToOp b ∈ byteOps →
      c.instructions.get? (offset + 1) = some x →
      WF asFun c (offset + 2) → WF asFun c offset
  | constArg (offset b idx : Nat) (v : V) :
      c.instructions.get? offset = some b → byteToOp b = .Constant →
      c.instructions.get? (offset + 1) = some idx →
      c.constants.get? idx = some v →
      WF asFun c (offset + 2) → WF asFun c offset
  | globalArg (offset b idx : Nat) (g : String) :
      c.instructions.get? offset = some b → byteToOp b ∈ globalOps →
      c.instructions.get? (offset + 1) = some idx →
      c.globals.get? idx = some g →
      WF asFun c (offset + 2) → WF asFun c offset
  | jumpArg (offset b x y : Nat) :
      c.instructions.get? offset = some b → byteToOp b ∈ jumpOps →
      c.instructions.get? (offset + 1) = some x →
      c.instructions.get? (offset + 2) = some y →
      WF asFun c (offset + 3) → WF asFun c offset
  | closureArg (offset b idx : Nat) (v : V) (fn : ObjFunction) :
      c.instructions.get? offset = some b → byteToOp b = .Closure →
      c.instructions.get? (offset + 1) = some idx →
      c.constants.get? idx = some v → asFun v = some fn →
      offset + 2 + 2 * fn.upvalues ≤ c.instructions.length →
      WF asFun c (offset + 2 + 2 * fn.upvalues) → WF asFun c offset

end Bytecode

/-! Concrete states used to evaluate the theorems at explicit inputs. -/

/-- A VM state about to execute `Add` on the two numbers 1 and 2. -/
def c1state : EarlyVM.VMState Int :=
  { chunk := { instructions := [9], constants := [] }, ip := 0,
    stack := [.num 2, .num 1], heap := [], objects := [], output := [] }

/-- A VM state about to execute `Return` with the value 1 on the stack. -/
def c2state : EarlyVM.VMState Int :=
  { chunk := { instructions := [0], constants := [] }, ip := 0,
    stack := [.num 1], heap := [], objects := [], output := [] }

/-- A VM state about to execute `Not` on `Nil`. -/
def c3state : EarlyVM.VMState Int :=
  { chunk := { instructions := [6], constants := [] }, ip := 0,
    stack := [.nil], heap := [], objects := [], output := [] }

/-- A VM state about to execute `Equal` on two distinct heap strings with the
same content. -/
def c4state : EarlyVM.VMState Int :=
  { chunk := { instructions := [13], constants := [] }, ip := 0,
    stack := [.object 1, .object 0],
    heap := [.string "foo", .string "foo"], objects := [], output := [] }

/-- A VM state about to execute `Print` on the heap string `foo`. -/
def c5state : EarlyVM.VMState Int :=
  { chunk := { instructions := [7], constants := [] }, ip := 0,
    stack := [.object 0], heap := [.string "foo"], objects := [0],
    output := [] }

/-- An empty bytecode chunk over a `Nat` constant pool. -/
def c6chunk : Bytecode.BChunk Nat :=
  { instructions := [], spans := [], constants := [], globals := [],
    native_globals := [] }

/-- A bytecode chunk already holding 256 constants. -/
def c7chunk : Bytecode.BChunk Nat :=
  { instructions := [], spans := [], constants := List.replicate 256 0,
    globals := [], native_globals := [] }

/-- A repr chunk already holding 256 distinct global names
(`"0"`, `"1"`, …, `"255"`). -/
def c7rchunk : ReprC.RChunk Nat :=
  { instructions := [], spans := [], constants := [],
    global_names := (List.range 256).map (fun n => toString n) }

/-- A repr chunk holding the single global name `a`. -/
def c8chunk : ReprC.RChunk Nat :=
  { instructions := [], spans := [], constants := [], global_names := ["a"] }

/-- A function constant with one upvalue, for exercising the `Closure`
decoding. -/
def c9fun : Bytecode.ObjFunction := { name := "f", arity := 0, upvalues := 1 }

/-- A view of the `Nat` constant pool under which the constant 1 is the
function `c9fun`. -/
def c9asFun : Nat → Option Bytecode.ObjFunction :=
  fun n => if n = 1 then some c9fun else none

/-- A well-formed chunk: `Closure 0` with one `(is_local, index)` trailer
pair, then `Return`. -/
def c9chunk : Bytecode.BChunk Nat :=
  { instructions := [10, 0, 1, 0, 0],
    spans := List.replicate 5 { start := 0, stop := 1 },
    constants := [1], globals := [], native_globals := [] }

/-- A fresh VM over a chunk with an empty instruction buffer. -/
def c10state : EarlyVM.VMState Int :=
  { chunk := { instructions := [], constants := [.num 3] }, ip := 0,
    stack := [], heap := [], objects := [], output := [] }

/-! ## Theorems -/

open EarlyVM in
/-- C1: executing `Add` with at least two stacked values pushes `Num (a + b)`
when both popped operands are numbers, pushes a freshly allocated string
object whose content is the left content followed by the right content when
both are string objects, and signals a runtime error (aborting dispatch) for
every other pair of operands. -/
theorem c1_add_opcode {α : Type} (F : FloatOps α) (s : VMState α)
    (b0 a0 : Value α) (rest : List (Value α)) (byte : Nat)
    (hop : s.chunk.instructions.get? s.ip = some byte)
    (hb : byteToOp byte = OpCode.Add)
    (hstack : s.stack = b0 :: a0 :: rest) :
    (∀ x y, a0 = Value.num x → b0 = Value.num y →
      step F s = StepResult.cont
        { s with ip := s.ip + 1, stack := Value.num (F.add x y) :: rest }) ∧
    (∀ i j ca cb, a0 = Value.object i → b0 = Value.object j →
      s.heap.get? i = some (ObjectKind.string ca) →
      s.heap.get? j = some (ObjectKind.string cb) →
      step F s = StepResult.cont
        { s with ip := s.ip + 1,
                 stack := Value.object s.heap.length :: rest,
                 heap := s.heap ++ [ObjectKind.string (ca ++ cb)],
                 objects := s.objects ++ [s.heap.length] }) ∧
    ((∀ x y, ¬(a0 = Value.num x ∧ b0 = Value.num y)) →
     (∀ i j, ¬(a0 = Value.object i ∧ b0 = Value.object j)) →
      step F s = StepResult.error { s with ip := s.ip + 1, stack := rest }) := by
  rw [List.get?_eq_getElem?] at hop
  refine ⟨?_, ?_, ?_⟩
  · rintro x y rfl rfl
    simp [step, hop, hb, stepOp, hstack]
  · rintro i j ca cb rfl rfl hi hj
    rw [List.get?_eq_getElem?] at hi hj
    simp [step, hop, hb, stepOp, hstack, is_string, concatenate, hi, hj]
  · intro hnum hobj
    cases a0 <;> cases b0 <;>
      simp_all [step, hop, hb, stepOp, hstack]

/-- Evaluation of `c1_add_opcode` at the concrete state `c1state`
(`Add` on the numbers 1 and 2 pushes 3). -/
theorem c1_add_opcode_witness :
    EarlyVM.step EarlyVM.intOps c1state = EarlyVM.StepResult.cont
      { c1state with ip := 1, stack := [EarlyVM.Value.num 3] } :=
  (c1_add_opcode EarlyVM.intOps c1state (.num 2) (.num 1) [] 9
    rfl rfl rfl).1 1 2 rfl rfl

/-- C2 (counterexample): executing `Return` with the value 1 on the stack
halts with success but leaves the stack non-empty — the return value is not
popped, refuting the claim that `Return` pops it. -/
theorem c2_return_counterexample :
    EarlyVM.step EarlyVM.intOps c2state =
      EarlyVM.StepResult.halt { c2state with ip := 1 } ∧
    ({ c2state with ip := 1 } : EarlyVM.VMState Int).stack ≠ [] :=
  ⟨rfl, by decide⟩

open EarlyVM in
/-- C2 (amended): executing the `Return` opcode halts the dispatch loop with
success; nothing is popped — the return value stays on the value stack (this
VM has no call frames). -/
theorem c2_return_halts {α : Type} (F : FloatOps α) (s : VMState α) (byte : Nat)
    (hop : s.chunk.instructions.get? s.ip = some byte)
    (hb : byteToOp byte = OpCode.Return) :
    step F s = StepResult.halt { s with ip := s.ip + 1 } := by
  rw [List.get?_eq_getElem?] at hop
  simp [step, hop, hb, stepOp]

/-- Evaluation of `c2_return_halts` at the concrete state `c2state`. -/
theorem c2_return_halts_witness :
    EarlyVM.step EarlyVM.intOps c2state =
      EarlyVM.StepResult.halt { c2state with ip := 1 } :=
  c2_return_halts EarlyVM.intOps c2state 0 rfl rfl

open EarlyVM in
/-- C3: `falsey` holds exactly for `Bool false` and `Nil`, and executing `Not`
on any stack top `v` (including `Num 0` and the empty string) pops `v` and
pushes `Bool (falsey v)` — `true` iff `v` is `Bool false` or `Nil`. -/
theorem c3_falsey_not {α : Type} (F : FloatOps α) :
    (∀ v : Value α, v.falsey = true ↔ (v = Value.bool false ∨ v = Value.nil)) ∧
    (∀ (s : VMState α) (v : Value α) (rest : List (Value α)) (byte : Nat),
      s.chunk.instructions.get? s.ip = some byte →
      byteToOp byte = OpCode.Not → s.stack = v :: rest →
      step F s = StepResult.cont
        { s with ip := s.ip + 1, stack := Value.bool v.falsey :: rest }) := by
  constructor
  · intro v
    cases v with
    | bool b => cases b <;> simp [Value.falsey]
    | _ => simp [Value.falsey]
  · intro s v rest byte hop hb hstack
    rw [List.get?_eq_getElem?] at hop
    simp [step, hop, hb, stepOp, hstack]

/-- Evaluation of `c3_falsey_not` at the concrete state `c3state`
(`Not` on `Nil` pushes `Bool true`). -/
theorem c3_falsey_not_witness :
    EarlyVM.step EarlyVM.intOps c3state = EarlyVM.StepResult.cont
      { c3state with ip := 1, stack := [EarlyVM.Value.bool true] } :=
  (c3_falsey_not EarlyVM.intOps).2 c3state .nil [] 6 rfl rfl rfl

open EarlyVM in
/-- C4: executing `Equal` pops both operands and pushes
`Bool (valueEq a b)`; values of different variants always compare `false`,
and two string objects compare `true` exactly when their contents are equal,
regardless of whether they are the same heap allocation. -/
theorem c4_equal_opcode {α : Type} (F : FloatOps α) :
    (∀ (s : VMState α) (b0 a0 : Value α) (rest : List (Value α)) (byte : Nat),
      s.chunk.instructions.get? s.ip = some byte →
      byteToOp byte = OpCode.Equal → s.stack = b0 :: a0 :: rest →
      step F s = StepResult.cont
        { s with ip := s.ip + 1,
                 stack := Value.bool (valueEq F s.heap a0 b0) :: rest }) ∧
    (∀ (heap : List ObjectKind) (a b : Value α),
      sameVariant a b = false → valueEq F heap a b = false) ∧
    (∀ (heap : List ObjectKind) (i j : Nat) (ca cb : String),
      heap.get? i = some (ObjectKind.string ca) →
      heap.get? j = some (ObjectKind.string cb) →
      (valueEq F heap (Value.object i) (Value.object j) = true ↔ ca = cb)) := by
  refine ⟨?_, ?_, ?_⟩
  · intro s b0 a0 rest byte hop hb hstack
    rw [List.get?_eq_getElem?] at hop
    simp [step, hop, hb, stepOp, hstack]
  · intro heap a b hv
    cases a <;> cases b <;> simp_all [sameVariant, valueEq]
  · intro heap i j ca cb hi hj
    rw [List.get?_eq_getElem?] at hi hj
    simp [valueEq, objEq, hi, hj]

/-- Evaluation of `c4_equal_opcode` at the concrete state `c4state`
(`Equal` on two distinct allocations both holding `foo` pushes `Bool true`). -/
theorem c4_equal_opcode_witness :
    EarlyVM.step EarlyVM.intOps c4state = EarlyVM.StepResult.cont
      { c4state with ip := 1, stack := [EarlyVM.Value.bool true] } ∧
    EarlyVM.valueEq EarlyVM.intOps c4state.heap
      (EarlyVM.Value.object 0) (EarlyVM.Value.object 1) = true :=
  ⟨(c4_equal_opcode EarlyVM.intOps).1 c4state (.object 1) (.object 0) [] 13
      rfl rfl rfl,
   ((c4_equal_opcode EarlyVM.intOps).2.2 c4state.heap 0 1 "foo" "foo"
      rfl rfl).2 rfl⟩

/-- C5 (counterexample): executing `Print` on the heap string `foo` writes
`"foo"` — the content wrapped in double quotes, not the raw content — to
stdout, refuting the claim that the display form written by `Print` is the
raw content with no added quotation marks. -/
theorem c5_print_counterexample :
    EarlyVM.step EarlyVM.intOps c5state = EarlyVM.StepResult.cont
      { c5state with ip := 1, stack := [], output := ["\"foo\""] } ∧
    ("\"foo\"" : String) ≠ "foo" :=
  ⟨rfl, by decide⟩

/-- C5 (amended): under the later representation (`src/repr/string.rs`,
`src/repr/object.rs`) a string value's display form is exactly its raw
content, with no decoration; the earlier `src/object.rs` formatter used by
`src/vm.rs`'s `Print` instead wraps the content in double quotes. -/
theorem c5_string_display (s : String) :
    ReprDisplay.RObjectKind.display (ReprDisplay.RObjectKind.string s) = s ∧
    ReprDisplay.unsafe_string_display s = s ∧
    EarlyVM.ObjectKind.display (EarlyVM.ObjectKind.string s) =
      "\"" ++ s ++ "\"" :=
  ⟨rfl, rfl, rfl⟩

open EarlyVM in
/-- C10: running the VM on a chunk whose instruction buffer is empty returns
success immediately (for every fuel, so no dispatch step is taken) with the
state unchanged — in particular the stack, the transient-object list and the
output of a fresh VM stay empty. -/
theorem c10_empty_run {α : Type} (F : FloatOps α) (fuel : Nat) (s : VMState α)
    (h : s.chunk.instructions = []) : run F fuel s = RunResult.ok s := by
  simp [run, h]

/-- Evaluation of `c10_empty_run` at the fresh state `c10state` (with zero
fuel, so success is reached without any dispatch). -/
theorem c10_empty_run_witness :
    EarlyVM.run EarlyVM.intOps 0 c10state = EarlyVM.RunResult.ok c10state :=
  c10_empty_run EarlyVM.intOps 0 c10state rfl

/-- Helper: a predicate false on every element is found at no index. -/
theorem find_index_eq_none {p : String → Bool} :
    ∀ {l : List String}, (∀ a ∈ l, p a = false) → ReprC.find_index p l = none := by
  intro l
  induction l with
  | nil => intro _; rfl
  | cons a l ih =>
    intro h
    have ha : p a = false := h a (List.mem_cons_self a l)
    have hl := ih (fun b hb => h b (List.mem_cons_of_mem a hb))
    simp [ReprC.find_index, ha, hl]

/-- Helper: a found index is within the list. -/
theorem find_index_lt_length {p : String → Bool} :
    ∀ {l : List String} {i : Nat}, ReprC.find_index p l = some i → i < l.length := by
  intro l
  induction l with
  | nil => intro i h; simp [ReprC.find_index] at h
  | cons a l ih =>
    intro i h
    by_cases ha : p a = true
    · simp [ReprC.find_index, ha] at h
      simp only [List.length_cons]
      omega
    · simp only [ReprC.find_index, Bool.not_eq_true] at ha h
      rw [ha] at h
      simp only [if_neg Bool.false_ne_true, Option.map_eq_some'] at h
      obtain ⟨j, hj, rfl⟩ := h
      have := ih hj
      simp only [List.length_cons]
      omega

/-- Helper: a found index points at an element satisfying the predicate. -/
theorem find_index_mem {p : String → Bool} :
    ∀ {l : List String} {i : Nat}, ReprC.find_index p l = some i →
      ∃ a ∈ l, p a = true := by
  intro l
  induction l with
  | nil => intro i h; simp [ReprC.find_index] at h
  | cons a l ih =>
    intro i h
    by_cases ha : p a = true
    · exact ⟨a, List.mem_cons_self a l, ha⟩
    · simp only [ReprC.find_index, Bool.not_eq_true] at ha h
      rw [ha] at h
      simp only [if_neg Bool.false_ne_true, Option.map_eq_some'] at h
      obtain ⟨j, hj, _⟩ := h
      obtain ⟨b, hb, hpb⟩ := ih hj
      exact ⟨b, List.mem_cons_of_mem a hb, hpb⟩

/-- Helper: if nothing is found the predicate is false on every element. -/
theorem find_index_none_forall {p : String → Bool} :
    ∀ {l : List String}, ReprC.find_index p l = none → ∀ a ∈ l, p a = false := by
  intro l
  induction l with
  | nil => intro _ a ha; simp at ha
  | cons b l ih =>
    intro h a ha
    by_cases hb : p b = true
    · simp [ReprC.find_index, hb] at h
    · simp only [ReprC.find_index, Bool.not_eq_true] at hb h
      rw [hb] at h
      simp only [if_neg Bool.false_ne_true, Option.map_eq_none'] at h
      rcases List.mem_cons.mp ha with rfl | ha
      · exact hb
      · exact ih h a ha

/-- Helper: appending a first match to a match-free list finds it at the old
length. -/
theorem find_index_append_fresh {p : String → Bool} {x : String} :
    ∀ {l : List String}, (∀ a ∈ l, p a = false) → p x = true →
      ReprC.find_index p (l ++ [x]) = some l.length := by
  intro l
  induction l with
  | nil => intro _ hx; simp [ReprC.find_index, hx]
  | cons a l ih =>
    intro h hx
    have ha : p a = false := h a (List.mem_cons_self a l)
    have := ih (fun b hb => h b (List.mem_cons_of_mem a hb)) hx
    simp [ReprC.find_index, ha, this]

/-- C6: for every chunk holding fewer than 256 constants, `add_constant v`
returns a `u8` index `i` with `get_constant i = v` afterwards, and every
previously stored constant is still retrievable at its old index. -/
theorem c6_add_constant {V : Type} (c : Bytecode.BChunk V) (v : V)
    (h : c.constants.length < 256) :
    ∃ i c', Bytecode.add_constant c v = PanicOr.ok (i, c') ∧ i ≤ 255 ∧
      Bytecode.get_constant c' i = some v ∧
      ∀ j, j < c.constants.length →
        Bytecode.get_constant c' j = Bytecode.get_constant c j := by
  refine ⟨c.constants.length, { c with constants := c.constants ++ [v] },
    ?_, by omega, ?_, ?_⟩
  · have hle : c.constants.length ≤ 255 := by omega
    simp [Bytecode.add_constant, hle]
  · simp [Bytecode.get_constant, List.getElem?_concat_length]
  · intro j hj
    simp [Bytecode.get_constant, List.getElem?_append_left hj]

/-- Evaluation of `c6_add_constant` at the empty chunk `c6chunk` and the
constant 42. -/
theorem c6_add_constant_witness :
    ∃ i c', Bytecode.add_constant c6chunk 42 = PanicOr.ok (i, c') ∧ i ≤ 255 ∧
      Bytecode.get_constant c' i = some 42 ∧
      ∀ j, j < c6chunk.constants.length →
        Bytecode.get_constant c' j = Bytecode.get_constant c6chunk j :=
  c6_add_constant c6chunk 42 (by decide)

/-- C7 (counterexample): adding a constant to a chunk already holding 256
constants, and a 257th distinct global name, both hit
`try_into().expect(…)` — an unrecoverable panic, not a reported compile
error, refuting the claim's "a reported failure, not an unrecoverable
crash". -/
theorem c7_overflow_counterexample :
    Bytecode.add_constant c7chunk 0 = PanicOr.panicked "Too many constants" ∧
    ReprC.add_global c7rchunk "x" = PanicOr.panicked "Too many literals" :=
  ⟨rfl, rfl⟩

/-- C7 (amended): adding a constant to a chunk that already holds 256
constants, or a 257th distinct global name to the interner, makes the
compiler panic (`expect` aborts the process) rather than report a
compile-time error. -/
theorem c7_overflow_panics {V : Type} (c : Bytecode.BChunk V) (v : V)
    (rc : ReprC.RChunk V) (lit : String)
    (h1 : c.constants.length = 256)
    (h2 : rc.global_names.length = 256)
    (h3 : ∀ t ∈ rc.global_names, t ≠ lit) :
    Bytecode.add_constant c v = PanicOr.panicked "Too many constants" ∧
    ReprC.add_global rc lit = PanicOr.panicked "Too many literals" := by
  constructor
  · simp [Bytecode.add_constant, h1]
  · have hnone : ReprC.find_index (fun s => s == lit) rc.global_names = none :=
      find_index_eq_none (fun a ha => by
        simpa using h3 a ha)
    simp [ReprC.add_global, hnone, h2]

/-- Evaluation of `c7_overflow_panics` at the full chunks `c7chunk` and
`c7rchunk`. -/
theorem c7_overflow_panics_witness :
    Bytecode.add_constant c7chunk 0 = PanicOr.panicked "Too many constants" ∧
    ReprC.add_global c7rchunk "y" = PanicOr.panicked "Too many literals" :=
  c7_overflow_panics c7chunk 0 c7rchunk "y" (by decide) (by decide)
    (by decide)

/-- C8: on a chunk with fewer than 256 registered global names, `add_global`
is idempotent — a second insertion of the same literal returns the same `u8`
index and the unchanged table — and a fresh literal is assigned the next
unused index, the old table length. -/
theorem c8_add_global_idempotent {V : Type} (c : ReprC.RChunk V) (lit : String)
    (h : c.global_names.length < 256) :
    ∃ i c₁, ReprC.add_global c lit = PanicOr.ok (i, c₁) ∧
      ReprC.add_global c₁ lit = PanicOr.ok (i, c₁) ∧
      ((∀ t ∈ c.global_names, t ≠ lit) →
        i = c.global_names.length ∧
        c₁.global_names = c.global_names ++ [lit]) := by
  cases hfind : ReprC.find_index (fun s => s == lit) c.global_names with
  | some i =>
    have hi : i < c.global_names.length := find_index_lt_length hfind
    have hmod : i % 256 = i := Nat.mod_eq_of_lt (by omega)
    refine ⟨i, c, ?_, ?_, ?_⟩
    · simp [ReprC.add_global, hfind, hmod]
    · simp [ReprC.add_global, hfind, hmod]
    · intro h3
      obtain ⟨a, ha, hpa⟩ := find_index_mem hfind
      exact absurd (eq_of_beq hpa) (h3 a ha)
  | none =>
    have hall := find_index_none_forall hfind
    have hfound : ReprC.find_index (fun s => s == lit)
        (c.global_names ++ [lit]) = some c.global_names.length :=
      find_index_append_fresh hall (by simp)
    have hle : c.global_names.length ≤ 255 := by omega
    have hmod : c.global_names.length % 256 = c.global_names.length :=
      Nat.mod_eq_of_lt (by omega)
    refine ⟨c.global_names.length,
      { c with global_names := c.global_names ++ [lit] }, ?_, ?_, ?_⟩
    · simp [ReprC.add_global, hfind, hle]
    · simp [ReprC.add_global, hfound, hmod]
    · intro _
      exact ⟨rfl, rfl⟩

/-- Evaluation of `c8_add_global_idempotent` at the one-name chunk `c8chunk`
and the fresh literal `b`. -/
theorem c8_add_global_idempotent_witness :
    ∃ i c₁, ReprC.add_global c8chunk "b" = PanicOr.ok (i, c₁) ∧
      ReprC.add_global c₁ "b" = PanicOr.ok (i, c₁) ∧
      ((∀ t ∈ c8chunk.global_names, t ≠ "b") →
        i = c8chunk.global_names.length ∧
        c₁.global_names = c8chunk.global_names ++ ["b"]) :=
  c8_add_global_idempotent c8chunk "b" (by decide)

/-- Helper: a well-formed offset never lies past the end of the buffer. -/
theorem wf_le {V : Type} {asFun : V → Option Bytecode.ObjFunction}
    {c : Bytecode.BChunk V} {offset : Nat} (h : Bytecode.WF asFun c offset) :
    offset ≤ c.instructions.length := by
  induction h with
  | done => exact Nat.le_refl _
  | simple o b h1 h2 h3 ih =>
    rw [List.get?_eq_getElem?] at h1
    have := List.getElem?_eq_some.mp h1
    omega
  | byteArg o b x h1 h2 h3 h4 ih =>
    rw [List.get?_eq_getElem?] at h1
    have := List.getElem?_eq_some.mp h1
    omega
  | constArg o b idx v h1 h2 h3 h4 h5 ih =>
    rw [List.get?_eq_getElem?] at h1
    have := List.getElem?_eq_some.mp h1
    omega
  | globalArg o b idx g h1 h2 h3 h4 h5 ih =>
    rw [List.get?_eq_getElem?] at h1
    have := List.getElem?_eq_some.mp h1
    omega
  | jumpArg o b x y h1 h2 h3 h4 h5 ih =>
    rw [List.get?_eq_getElem?] at h1
    have := List.getElem?_eq_some.mp h1
    omega
  | closureArg o b idx v fn h1 h2 h3 h4 h5 h6 h7 ih =>
    rw [List.get?_eq_getElem?] at h1
    have := List.getElem?_eq_some.mp h1
    omega

/-- Helper: a `Closure` trailer that fits inside the buffer is consumed in
full, advancing the offset by two bytes per upvalue. -/
theorem closure_trailer_eq {V : Type} (c : Bytecode.BChunk V) :
    ∀ (n offset : Nat), offset + 2 * n ≤ c.instructions.length →
      Bytecode.closure_trailer c n offset = some (offset + 2 * n) := by
  intro n
  induction n with
  | zero => intro offset h; simp [Bytecode.closure_trailer]
  | succ n ih =>
    intro offset h
    have g1 : c.instructions[offset]? = some c.instructions[offset] :=
      List.getElem?_eq_getElem (by omega)
    have g2 : c.instructions[offset + 1]? = some c.instructions[offset + 1] :=
      List.getElem?_eq_getElem (by omega)
    have grec := ih (offset + 2) (by omega)
    rw [show offset + 2 * (n + 1) = offset + 2 + 2 * n by ring]
    simp [Bytecode.closure_trailer, g1, g2, grec]

/-- Helper: at a well-formed offset inside the buffer the disassembler decodes
one instruction, returning a strictly larger, still well-formed offset. -/
theorem wf_step {V : Type} (asFun : V → Option Bytecode.ObjFunction)
    (c : Bytecode.BChunk V) (hspans : c.spans.length = c.instructions.length)
    {offset : Nat} (hlt : offset < c.instructions.length)
    (h : Bytecode.WF asFun c offset) :
    ∃ off', Bytecode.disassemble_instruction asFun c offset = some off' ∧
      offset < off' ∧ Bytecode.WF asFun c off' := by
  have hsp : c.spans[offset]? = some c.spans[offset] :=
    List.getElem?_eq_getElem (by omega)
  cases h with
  | done => omega
  | simple _ b h1 h2 h3 =>
    rw [List.get?_eq_getElem?] at h1
    refine ⟨offset + 1, ?_, by omega, h3⟩
    simp only [Bytecode.simpleOps, List.mem_cons, List.not_mem_nil,
      or_false] at h2
    rcases h2 with h2|h2|h2|h2|h2|h2|h2|h2|h2|h2|h2|h2|h2|h2|h2|h2|h2 <;>
      simp [Bytecode.disassemble_instruction, hsp, h1, h2]
  | byteArg _ b x h1 h2 h3 h4 =>
    rw [List.get?_eq_getElem?] at h1 h3
    refine ⟨offset + 2, ?_, by omega, h4⟩
    simp only [Bytecode.byteOps, List.mem_cons, List.not_mem_nil,
      or_false] at h2
    rcases h2 with h2|h2|h2|h2|h2 <;>
      simp [Bytecode.disassemble_instruction, hsp, h1, h2, h3]
  | constArg _ b idx v h1 h2 h3 h4 h5 =>
    rw [List.get?_eq_getElem?] at h1 h3 h4
    refine ⟨offset + 2, ?_, by omega, h5⟩
    simp [Bytecode.disassemble_instruction, hsp, h1, h2, h3, h4]
  | globalArg _ b idx g h1 h2 h3 h4 h5 =>
    rw [List.get?_eq_getElem?] at h1 h3 h4
    refine ⟨offset + 2, ?_, by omega, h5⟩
    simp only [Bytecode.globalOps, List.mem_cons, List.not_mem_nil,
      or_false] at h2
    rcases h2 with h2|h2|h2 <;>
      simp [Bytecode.disassemble_instruction, hsp, h1, h2, h3, h4]
  | jumpArg _ b x y h1 h2 h3 h4 h5 =>
    rw [List.get?_eq_getElem?] at h1 h3 h4
    refine ⟨offset + 3, ?_, by omega, h5⟩
    simp only [Bytecode.jumpOps, List.mem_cons, List.not_mem_nil,
      or_false] at h2
    rcases h2 with h2|h2|h2|h2 <;>
      simp [Bytecode.disassemble_instruction, hsp, h1, h2, h3, h4]
  | closureArg _ b idx v fn h1 h2 h3 h4 h5 h6 h7 =>
    rw [List.get?_eq_getElem?] at h1 h3 h4
    refine ⟨offset + 2 + 2 * fn.upvalues, ?_, by omega, h7⟩
    have htr := closure_trailer_eq c fn.upvalues (offset + 2) (by omega)
    simp [Bytecode.disassemble_instruction, hsp, h1, h2, h3, h4, h5, htr]

/-- Helper: from any well-formed offset, the disassembler loop with enough
fuel exits exactly at the end of the instruction buffer. -/
theorem wf_loop {V : Type} (asFun : V → Option Bytecode.ObjFunction)
    (c : Bytecode.BChunk V) (hspans : c.spans.length = c.instructions.length) :
    ∀ (fuel offset : Nat), Bytecode.WF asFun c offset →
      c.instructions.length - offset ≤ fuel →
      Bytecode.disassemble_loop asFun c fuel offset =
        some c.instructions.length := by
  intro fuel
  induction fuel with
  | zero =>
    intro offset h hf
    have h1 := wf_le h
    have h2 : offset = c.instructions.length := by omega
    subst h2
    simp [Bytecode.disassemble_loop]
  | succ fuel ih =>
    intro offset h hf
    by_cases hlt : offset < c.instructions.length
    · obtain ⟨off', heq, hgt, hwf⟩ := wf_step asFun c hspans hlt h
      have hle := wf_le hwf
      simp only [Bytecode.disassemble_loop, if_pos hlt, heq]
      exact ih off' hwf (by omega)
    · have h1 := wf_le h
      have h2 : offset = c.instructions.length := by omega
      subst h2
      simp [Bytecode.disassemble_loop]

/-- C9: on every chunk satisfying the opcode/operand invariant (and span
parity), the disassembler's walk terminates — each `disassemble_instruction`
call returns an offset strictly greater than its input without reading past
the end of the instruction buffer, and iterating from offset 0 consumes
exactly `instructions.length` bytes with no leftover. -/
theorem c9_disassembler_walk {V : Type} (asFun : V → Option Bytecode.ObjFunction)
    (c : Bytecode.BChunk V) (hspans : c.spans.length = c.instructions.length) :
    (∀ offset, offset < c.instructions.length → Bytecode.WF asFun c offset →
      ∃ off', Bytecode.disassemble_instruction asFun c offset = some off' ∧
        offset < off' ∧ off' ≤ c.instructions.length ∧
        Bytecode.WF asFun c off') ∧
    (Bytecode.WF asFun c 0 →
      Bytecode.disassemble asFun c = some c.instructions.length) := by
  constructor
  · intro offset hlt h
    obtain ⟨off', h1, h2, h3⟩ := wf_step asFun c hspans hlt h
    exact ⟨off', h1, h2, wf_le h3, h3⟩
  · intro h
    simpa [Bytecode.disassemble] using
      wf_loop asFun c hspans c.instructions.length 0 h (by omega)

/-- Evaluation of `c9_disassembler_walk` at the concrete chunk `c9chunk`
(`Closure 0` with one upvalue pair, then `Return`): the walk consumes all 5
bytes. -/
theorem c9_disassembler_walk_witness :
    Bytecode.disassemble c9asFun c9chunk = some c9chunk.instructions.length := by
  refine (c9_disassembler_walk c9asFun c9chunk (by decide)).2 ?_
  refine Bytecode.WF.closureArg 0 10 0 1 c9fun rfl rfl rfl rfl rfl
    (by decide) ?_
  refine Bytecode.WF.simple 4 0 rfl (by decide) ?_
  exact Bytecode.WF.done

end RloxPt2
